import Mathlib

set_option autoImplicit false
set_option linter.unusedVariables false

/-!
Shallow embedding of the per-client rate limiter of the Greenlight API server:
the `rateLimit` middleware in `cmd/api/middleware.go`, the token-bucket limiter
it consults, the `clients` registry map, and the background eviction sweep.
Time is measured in seconds and modelled by rationals; token counts are
rationals as well (the limiter library keeps float64 token counts and the spec
asks for floating- or fixed-point counts supporting fractional refill).
-/

/-- Admission verdict returned by the middleware to the surrounding pipeline:
`allow` continues the handler chain, `deny` produces the 429 response
(middleware.go line 107). -/
inductive Verdict where
  | allow
  | deny
deriving DecidableEq, Repr

/-- Modelled from the spec: the token bucket used by `rateLimit` is
`golang.org/x/time/rate.Limiter`, a dependency whose source is not part of this
repository.  Per spec sections 3 and 4.1 it tracks a maximum `capacity`, a
refill `rate` in tokens per second, the current real-valued token count, and
the instant of the last lazy refill. -/
structure TokenBucket where
  capacity : ℚ
  rate : ℚ
  tokens : ℚ
  lastRefill : ℚ
deriving DecidableEq, Repr

/-- Modelled from the spec (section 4.1): lazy refill — add `elapsed * rate`
tokens, capped at `capacity`, and move `lastRefill` forward to `now`. -/
def TokenBucket.refill (b : TokenBucket) (now : ℚ) : TokenBucket :=
  { b with
      tokens := min (b.tokens + (now - b.lastRefill) * b.rate) b.capacity
      lastRefill := now }

/-- Modelled from the spec (section 4.1): `tryAdmit` refills lazily, then
admits exactly when at least one token is available, consuming it; on deny
only the refill persists. -/
def TokenBucket.tryAdmit (b : TokenBucket) (now : ℚ) : Bool × TokenBucket :=
  if 1 ≤ (b.refill now).tokens then
    (true, { b.refill now with tokens := (b.refill now).tokens - 1 })
  else
    (false, b.refill now)

/-- Modelled from the spec: `rate.NewLimiter(rps, burst)` (middleware.go line
97) creates a bucket of capacity `burst` starting at full capacity; `burst` is
a Go `int`, so it is embedded as an integer. -/
def newLimiter (rps : ℚ) (burst : ℤ) (now : ℚ) : TokenBucket :=
  { capacity := (burst : ℚ), rate := rps, tokens := (burst : ℚ), lastRefill := now }

/-- The `Client` struct of middleware.go lines 52-55: a rate limiter together
with the client's last-seen time. -/
structure Client where
  limiter : TokenBucket
  lastSeen : ℚ
deriving DecidableEq, Repr

/-- The `clients` map of middleware.go line 60, keyed by resolved IP address,
embedded as an association list with the leftmost binding authoritative. -/
abbrev ClientMap := List (String × Client)

/-- Go map read `clients[ip]` (middleware.go line 96). -/
def lookupClient : ClientMap → String → Option Client
  | [], _ => none
  | (k, v) :: rest, ip => if k = ip then some v else lookupClient rest ip

/-- Go map write `clients[ip] = ...` (middleware.go line 97): replace the
binding if the key is present, otherwise append a new binding. -/
def insertClient : ClientMap → String → Client → ClientMap
  | [], ip, c => [(ip, c)]
  | (k, v) :: rest, ip, c =>
    if k = ip then (ip, c) :: rest else (k, v) :: insertClient rest ip c

/-- The `config.limiter` settings of cmd/api/main.go lines 42-46, read from
the command-line flags at lines 88-90: `rps` is a float, `burst` a plain Go
`int`, `enabled` a bool.  No validation constrains any of them. -/
structure LimiterConfig where
  rps : ℚ
  burst : ℤ
  enabled : Bool
deriving DecidableEq, Repr

/-- The client record used for the current request (middleware.go lines
96-101): the existing entry if the IP is already in the map, otherwise a fresh
full-capacity limiter. -/
def clientFor (cfg : LimiterConfig) (clients : ClientMap) (ip : String) (now : ℚ) : Client :=
  match lookupClient clients ip with
  | some c => c
  | none => { limiter := newLimiter cfg.rps cfg.burst now, lastSeen := now }

/-- One admission check of the `rateLimit` middleware (middleware.go lines
85-119) — the critical section guarded by `mutex`: when limiting is disabled
the request is allowed without touching the registry; otherwise the client's
entry is looked up or created (lines 96-98), its `lastSeen` refreshed to now
(line 101), and its limiter consulted (line 105), storing the updated entry. -/
def rateLimit (cfg : LimiterConfig) (clients : ClientMap) (ip : String) (now : ℚ) :
    Verdict × ClientMap :=
  if cfg.enabled then
    (if ((clientFor cfg clients ip now).limiter.tryAdmit now).1 then Verdict.allow
      else Verdict.deny,
      insertClient clients ip
        { limiter := ((clientFor cfg clients ip now).limiter.tryAdmit now).2
          lastSeen := now })
  else
    (Verdict.allow, clients)

/-- `evictStale` of spec section 4.2: remove every entry idle longer than
`maxIdle` (middleware.go lines 74-78 delete an entry when
`time.Since(client.lastSeen) > maxIdle`, so an entry is kept exactly when
`now - lastSeen ≤ maxIdle`). -/
def evictStale (clients : ClientMap) (now maxIdle : ℚ) : ClientMap :=
  clients.filter fun kv => decide (now - kv.2.lastSeen ≤ maxIdle)

/-- One sweep of the background eviction goroutine (middleware.go lines
74-78): the idle threshold is hard-coded to three minutes, i.e. 180 seconds. -/
def evictSweep (clients : ClientMap) (now : ℚ) : ClientMap :=
  evictStale clients now 180

/-- State of the background eviction goroutine launched at middleware.go lines
64-83: either its loop is still running, holding the registry, or it has
stopped. -/
inductive EvictorState where
  | running (clients : ClientMap)
  | stopped
deriving DecidableEq, Repr

/-- One iteration of the eviction goroutine's `for` loop (middleware.go lines
65-82): sleep one minute, lock, sweep, unlock, repeat.  The loop body consults
no shutdown or cancellation signal — the `shutdownRequested` input is ignored
and a running loop keeps running. -/
def evictorStep (shutdownRequested : Bool) (now : ℚ) : EvictorState → EvictorState
  | EvictorState.running m => EvictorState.running (evictSweep m now)
  | EvictorState.stopped => EvictorState.stopped

/-- Run the eviction goroutine for `n` sleep intervals, feeding it the shutdown
signal `signals i` and the wall-clock time `times i` at each iteration. -/
def evictorRun (signals : ℕ → Bool) (times : ℕ → ℚ) (s : EvictorState) : ℕ → EvictorState
  | 0 => s
  | n + 1 => evictorStep (signals n) (times n) (evictorRun signals times s n)

/-- Modelled from the spec: identity resolution (`realip.FromRequest`,
middleware.go line 89) comes from a dependency whose source is not in this
repository; per spec sections 4.4 and 7, a request whose identity cannot be
resolved degrades to the deterministic sentinel (empty-string) key instead of
failing or bypassing the limiter. -/
def resolveIdentity : Option String → String
  | some s => s
  | none => ""

/-- Run a sequence of admission checks, at the given instants, for a single
client identity, collecting the verdicts and the final registry. -/
def runChecksFor (cfg : LimiterConfig) (ip : String) :
    ClientMap → List ℚ → List Verdict × ClientMap
  | m, [] => ([], m)
  | m, t :: ts =>
    ((rateLimit cfg m ip t).1 :: (runChecksFor cfg ip (rateLimit cfg m ip t).2 ts).1,
      (runChecksFor cfg ip (rateLimit cfg m ip t).2 ts).2)

/-- Run `n` back-to-back admission checks on a single bucket at one instant,
collecting the admit booleans. -/
def runChecks (b : TokenBucket) (now : ℚ) : ℕ → List Bool
  | 0 => []
  | n + 1 => (b.tryAdmit now).1 :: runChecks (b.tryAdmit now).2 now n

/-- Run a bucket through admission checks at the given instants. -/
def runAt (b : TokenBucket) : List ℚ → TokenBucket
  | [] => b
  | t :: ts => runAt (b.tryAdmit t).2 ts

/-- Cap invariant of spec section 3: the token count stays between zero and
the bucket's capacity. -/
def BucketInv (b : TokenBucket) : Prop :=
  0 ≤ b.tokens ∧ b.tokens ≤ b.capacity

/-! ## Registry map lemmas -/

theorem lookupClient_insert_self (m : ClientMap) (ip : String) (c : Client) :
    lookupClient (insertClient m ip c) ip = some c := by
  induction m with
  | nil => simp [insertClient, lookupClient]
  | cons kv rest ih =>
    obtain ⟨k, v⟩ := kv
    by_cases h : k = ip
    · simp [insertClient, lookupClient, h]
    · simp [insertClient, lookupClient, h, ih]

theorem lookupClient_insert_ne (m : ClientMap) (ip ip' : String) (c : Client)
    (h : ip' ≠ ip) :
    lookupClient (insertClient m ip c) ip' = lookupClient m ip' := by
  have hne : ¬ip = ip' := fun hh => h hh.symm
  induction m with
  | nil => simp [insertClient, lookupClient, hne]
  | cons kv rest ih =>
    obtain ⟨k, v⟩ := kv
    by_cases hk : k = ip
    · subst hk
      simp [insertClient, lookupClient, hne]
    · simp only [insertClient, hk, if_false, lookupClient]
      by_cases hk' : k = ip'
      · simp [hk']
      · simp [hk', ih]

theorem lookupClient_of_not_mem (m : ClientMap) (ip : String)
    (h : ip ∉ m.map Prod.fst) : lookupClient m ip = none := by
  induction m with
  | nil => rfl
  | cons kv rest ih =>
    obtain ⟨k, v⟩ := kv
    simp only [List.map_cons, List.mem_cons] at h
    push_neg at h
    have hk : ¬k = ip := fun hh => h.1 hh.symm
    simp [lookupClient, hk, ih h.2]

theorem lookupClient_filter_of_none (m : ClientMap) (p : String × Client → Bool)
    (ip : String) (h : lookupClient m ip = none) :
    lookupClient (m.filter p) ip = none := by
  induction m with
  | nil => rfl
  | cons kv rest ih =>
    obtain ⟨k, v⟩ := kv
    by_cases hk : k = ip
    · simp [lookupClient, hk] at h
    · simp only [lookupClient, hk, if_false] at h
      by_cases hp : p (k, v)
      · simp [List.filter, hp, lookupClient, hk, ih h]
      · simp [List.filter, hp, ih h]

theorem lookupClient_filter_dropped (m : ClientMap) (p : String × Client → Bool)
    (ip : String) (c : Client) (hnd : (m.map Prod.fst).Nodup)
    (h : lookupClient m ip = some c) (hp : p (ip, c) = false) :
    lookupClient (m.filter p) ip = none := by
  induction m with
  | nil => cases h
  | cons kv rest ih =>
    obtain ⟨k, v⟩ := kv
    simp only [List.map_cons, List.nodup_cons] at hnd
    by_cases hk : k = ip
    · subst hk
      have hv : v = c := by simpa [lookupClient] using h
      subst hv
      have hrest : lookupClient rest k = none :=
        lookupClient_of_not_mem rest k hnd.1
      simp [List.filter, hp, lookupClient_filter_of_none rest p k hrest]
    · simp only [lookupClient, hk, if_false] at h
      by_cases hpk : p (k, v)
      · simp [List.filter, hpk, lookupClient, hk, ih hnd.2 h]
      · simp [List.filter, hpk, ih hnd.2 h]

/-! ## Bucket lemmas -/

theorem refill_refill (b : TokenBucket) (now : ℚ) :
    (b.refill now).refill now = b.refill now := by
  simp only [TokenBucket.refill, sub_self, zero_mul, add_zero]
  congr 1
  exact min_eq_left (min_le_right _ _)

theorem runChecks_refill (b : TokenBucket) (now : ℚ) (n : ℕ) :
    runChecks (b.refill now) now n = runChecks b now n := by
  cases n with
  | zero => rfl
  | succ n =>
    have h : (b.refill now).tryAdmit now = b.tryAdmit now := by
      unfold TokenBucket.tryAdmit
      rw [refill_refill]
    simp only [runChecks, h]

theorem runChecks_nat_tokens (cap rate now : ℚ) :
    ∀ (n k : ℕ), (k : ℚ) ≤ cap →
      runChecks { capacity := cap, rate := rate, tokens := (k : ℚ), lastRefill := now } now n =
        List.replicate (min n k) true ++ List.replicate (n - k) false := by
  intro n
  induction n with
  | zero => intro k hk; simp [runChecks]
  | succ n ih =>
    intro k hk
    have hrefill :
        TokenBucket.refill
          { capacity := cap, rate := rate, tokens := (k : ℚ), lastRefill := now } now =
          { capacity := cap, rate := rate, tokens := (k : ℚ), lastRefill := now } := by
      simp only [TokenBucket.refill, sub_self, zero_mul, add_zero]
      congr 1
      exact min_eq_left hk
    cases k with
    | zero =>
      have hstep :
          TokenBucket.tryAdmit
            { capacity := cap, rate := rate, tokens := ((0 : ℕ) : ℚ), lastRefill := now } now =
            (false, { capacity := cap, rate := rate, tokens := ((0 : ℕ) : ℚ), lastRefill := now }) := by
        unfold TokenBucket.tryAdmit
        rw [hrefill]
        norm_num
      simp only [runChecks, hstep, ih 0 hk]
      simp [List.replicate_succ]
    | succ k =>
      have hone : (1 : ℚ) ≤ ((k + 1 : ℕ) : ℚ) := by push_cast; linarith
      have hstep :
          TokenBucket.tryAdmit
            { capacity := cap, rate := rate, tokens := ((k + 1 : ℕ) : ℚ), lastRefill := now } now =
            (true, { capacity := cap, rate := rate, tokens := ((k : ℕ) : ℚ), lastRefill := now }) := by
        unfold TokenBucket.tryAdmit
        rw [hrefill]
        rw [if_pos hone]
        congr 2
        push_cast
        ring_nf
      have hkle : ((k : ℕ) : ℚ) ≤ ((k + 1 : ℕ) : ℚ) := by push_cast; linarith
      have hk' : ((k : ℕ) : ℚ) ≤ cap := le_trans hkle hk
      simp only [runChecks, hstep, ih k hk']
      simp only [Nat.succ_min_succ, Nat.succ_sub_succ]
      simp [List.replicate_succ]

/-! ## Middleware bridge lemmas -/

/-- Mapping of the limiter's boolean to the middleware's verdict
(middleware.go lines 105-109). -/
def toVerdict (ok : Bool) : Verdict :=
  if ok then Verdict.allow else Verdict.deny

theorem rateLimit_found (cfg : LimiterConfig) (m : ClientMap) (ip : String)
    (c : Client) (now : ℚ) (he : cfg.enabled = true)
    (h : lookupClient m ip = some c) :
    rateLimit cfg m ip now =
      (toVerdict (c.limiter.tryAdmit now).1,
        insertClient m ip { limiter := (c.limiter.tryAdmit now).2, lastSeen := now }) := by
  simp [rateLimit, clientFor, he, h, toVerdict]

theorem rateLimit_absent (cfg : LimiterConfig) (m : ClientMap) (ip : String)
    (now : ℚ) (he : cfg.enabled = true) (h : lookupClient m ip = none) :
    rateLimit cfg m ip now =
      (toVerdict ((newLimiter cfg.rps cfg.burst now).tryAdmit now).1,
        insertClient m ip
          { limiter := ((newLimiter cfg.rps cfg.burst now).tryAdmit now).2
            lastSeen := now }) := by
  simp [rateLimit, clientFor, he, h, toVerdict]

theorem runChecksFor_found (cfg : LimiterConfig) (ip : String) (now : ℚ)
    (he : cfg.enabled = true) :
    ∀ (n : ℕ) (m : ClientMap) (c : Client), lookupClient m ip = some c →
      (runChecksFor cfg ip m (List.replicate n now)).1 =
        (runChecks c.limiter now n).map toVerdict := by
  intro n
  induction n with
  | zero => intro m c h; simp [runChecksFor, runChecks]
  | succ n ih =>
    intro m c h
    have hstep := rateLimit_found cfg m ip c now he h
    have hlook :
        lookupClient (rateLimit cfg m ip now).2 ip =
          some { limiter := (c.limiter.tryAdmit now).2, lastSeen := now } := by
      rw [hstep]
      exact lookupClient_insert_self m ip _
    simp only [List.replicate_succ, runChecksFor, runChecks, List.map_cons]
    rw [ih _ _ hlook, hstep]

theorem runChecksFor_absent (cfg : LimiterConfig) (ip : String) (now : ℚ) (n : ℕ)
    (m : ClientMap) (he : cfg.enabled = true) (h : lookupClient m ip = none) :
    (runChecksFor cfg ip m (List.replicate n now)).1 =
      (runChecks (newLimiter cfg.rps cfg.burst now) now n).map toVerdict := by
  cases n with
  | zero => simp [runChecksFor, runChecks]
  | succ n =>
    have hstep := rateLimit_absent cfg m ip now he h
    have hlook :
        lookupClient (rateLimit cfg m ip now).2 ip =
          some { limiter := ((newLimiter cfg.rps cfg.burst now).tryAdmit now).2
                 lastSeen := now } := by
      rw [hstep]
      exact lookupClient_insert_self m ip _
    simp only [List.replicate_succ, runChecksFor, runChecks, List.map_cons]
    rw [runChecksFor_found cfg ip now he n _ _ hlook, hstep]

/-- Verdicts of `n` immediate admission checks by a brand-new client identity:
the first `burst` checks are allowed, every later one is denied. -/
theorem fresh_replicate_verdicts (B : ℕ) (R : ℚ) (ip : String) (now : ℚ) (n : ℕ) :
    (runChecksFor { rps := R, burst := (B : ℤ), enabled := true } ip []
        (List.replicate n now)).1 =
      List.replicate (min n B) Verdict.allow ++ List.replicate (n - B) Verdict.deny := by
  have habs :
      (runChecksFor { rps := R, burst := (B : ℤ), enabled := true } ip []
          (List.replicate n now)).1 =
        (runChecks (newLimiter R (B : ℤ) now) now n).map toVerdict :=
    runChecksFor_absent _ ip now n [] rfl rfl
  have hfresh :
      newLimiter R (B : ℤ) now =
        { capacity := (B : ℚ), rate := R, tokens := ((B : ℕ) : ℚ), lastRefill := now } := by
    simp [newLimiter]
  have hcount := runChecks_nat_tokens (B : ℚ) R now n B (le_refl _)
  rw [habs, hfresh, hcount]
  simp [toVerdict, List.map_replicate]

/-! ## Invariant lemmas -/

theorem tryAdmit_allow (b : TokenBucket) (now : ℚ)
    (hone : 1 ≤ min (b.tokens + (now - b.lastRefill) * b.rate) b.capacity) :
    b.tryAdmit now =
      (true,
        { capacity := b.capacity, rate := b.rate
          tokens := min (b.tokens + (now - b.lastRefill) * b.rate) b.capacity - 1
          lastRefill := now }) := by
  simp only [TokenBucket.tryAdmit, TokenBucket.refill]
  rw [if_pos hone]

theorem tryAdmit_deny (b : TokenBucket) (now : ℚ)
    (hone : ¬1 ≤ min (b.tokens + (now - b.lastRefill) * b.rate) b.capacity) :
    b.tryAdmit now =
      (false,
        { capacity := b.capacity, rate := b.rate
          tokens := min (b.tokens + (now - b.lastRefill) * b.rate) b.capacity
          lastRefill := now }) := by
  simp only [TokenBucket.tryAdmit, TokenBucket.refill]
  rw [if_neg hone]

theorem tryAdmit_preserves_inv (b : TokenBucket) (now : ℚ) (hr : 0 ≤ b.rate)
    (ht : b.lastRefill ≤ now) (h : BucketInv b) :
    BucketInv (b.tryAdmit now).2 ∧ (b.tryAdmit now).2.lastRefill = now ∧
      (b.tryAdmit now).2.rate = b.rate := by
  obtain ⟨h0, hcap⟩ := h
  have helapsed : 0 ≤ (now - b.lastRefill) * b.rate :=
    mul_nonneg (sub_nonneg.mpr ht) hr
  have hlo : 0 ≤ min (b.tokens + (now - b.lastRefill) * b.rate) b.capacity :=
    le_min (by linarith) (le_trans h0 hcap)
  have hhi : min (b.tokens + (now - b.lastRefill) * b.rate) b.capacity ≤ b.capacity :=
    min_le_right _ _
  unfold BucketInv
  by_cases hone : (1 : ℚ) ≤ min (b.tokens + (now - b.lastRefill) * b.rate) b.capacity
  · rw [tryAdmit_allow b now hone]
    refine ⟨⟨?_, ?_⟩, rfl, rfl⟩
    · show (0 : ℚ) ≤ min (b.tokens + (now - b.lastRefill) * b.rate) b.capacity - 1
      linarith
    · show min (b.tokens + (now - b.lastRefill) * b.rate) b.capacity - 1 ≤ b.capacity
      linarith
  · rw [tryAdmit_deny b now hone]
    exact ⟨⟨hlo, hhi⟩, rfl, rfl⟩

theorem runAt_preserves_inv (ts : List ℚ) :
    ∀ (b : TokenBucket), 0 ≤ b.rate → BucketInv b →
      List.Chain (fun x y => x ≤ y) b.lastRefill ts → BucketInv (runAt b ts) := by
  induction ts with
  | nil => intro b hr h hc; exact h
  | cons t ts ih =>
    intro b hr h hc
    rw [List.chain_cons] at hc
    obtain ⟨hstep, hrest⟩ := hc
    obtain ⟨hinv, hlast, hrate⟩ := tryAdmit_preserves_inv b t hr hstep h
    refine ih (b.tryAdmit t).2 ?_ hinv ?_
    · rw [hrate]; exact hr
    · rw [hlast]; exact hrest

/-! ## Frame and congruence lemmas -/

theorem rateLimit_frame (cfg : LimiterConfig) (m : ClientMap) (ip ip' : String)
    (t : ℚ) (h : ip' ≠ ip) :
    lookupClient (rateLimit cfg m ip t).2 ip' = lookupClient m ip' := by
  by_cases he : cfg.enabled
  · simp [rateLimit, he, lookupClient_insert_ne m ip ip' _ h]
  · simp [rateLimit, he]

theorem runChecksFor_frame (cfg : LimiterConfig) (ip ip' : String) (h : ip' ≠ ip) :
    ∀ (ts : List ℚ) (m : ClientMap),
      lookupClient (runChecksFor cfg ip m ts).2 ip' = lookupClient m ip' := by
  intro ts
  induction ts with
  | nil => intro m; rfl
  | cons t ts ih =>
    intro m
    simp only [runChecksFor]
    rw [ih (rateLimit cfg m ip t).2, rateLimit_frame cfg m ip ip' t h]

theorem rateLimit_congr (cfg : LimiterConfig) (m1 m2 : ClientMap) (ip : String)
    (t : ℚ) (h : lookupClient m1 ip = lookupClient m2 ip) :
    (rateLimit cfg m1 ip t).1 = (rateLimit cfg m2 ip t).1 ∧
      lookupClient (rateLimit cfg m1 ip t).2 ip =
        lookupClient (rateLimit cfg m2 ip t).2 ip := by
  by_cases he : cfg.enabled
  · have hc : clientFor cfg m1 ip t = clientFor cfg m2 ip t := by
      simp [clientFor, h]
    constructor
    · simp [rateLimit, he, hc]
    · simp [rateLimit, he, hc, lookupClient_insert_self]
  · constructor
    · simp [rateLimit, he]
    · simp [rateLimit, he, h]

theorem runChecksFor_congr (cfg : LimiterConfig) (ip : String) :
    ∀ (ts : List ℚ) (m1 m2 : ClientMap),
      lookupClient m1 ip = lookupClient m2 ip →
      (runChecksFor cfg ip m1 ts).1 = (runChecksFor cfg ip m2 ts).1 ∧
        lookupClient (runChecksFor cfg ip m1 ts).2 ip =
          lookupClient (runChecksFor cfg ip m2 ts).2 ip := by
  intro ts
  induction ts with
  | nil => intro m1 m2 h; exact ⟨rfl, h⟩
  | cons t ts ih =>
    intro m1 m2 h
    obtain ⟨hv, hm⟩ := rateLimit_congr cfg m1 m2 ip t h
    obtain ⟨hvs, hus⟩ := ih (rateLimit cfg m1 ip t).2 (rateLimit cfg m2 ip t).2 hm
    simp only [runChecksFor]
    exact ⟨by rw [hv, hvs], hus⟩

/-! ## Zero-burst lemmas -/

theorem tryAdmit_cap_nonpos (b : TokenBucket) (now : ℚ) (hcap : b.capacity ≤ 0) :
    (b.tryAdmit now).1 = false ∧ (b.tryAdmit now).2.capacity ≤ 0 := by
  have hle : min (b.tokens + (now - b.lastRefill) * b.rate) b.capacity ≤ 0 :=
    le_trans (min_le_right _ _) hcap
  have hone : ¬(1 : ℚ) ≤ min (b.tokens + (now - b.lastRefill) * b.rate) b.capacity := by
    intro hh; linarith
  rw [tryAdmit_deny b now hone]
  exact ⟨rfl, hcap⟩

theorem runChecksFor_cap_nonpos (R : ℚ) (ip : String) :
    ∀ (ts : List ℚ) (m : ClientMap),
      (∀ c, lookupClient m ip = some c → c.limiter.capacity ≤ 0) →
      (runChecksFor { rps := R, burst := 0, enabled := true } ip m ts).1 =
        List.replicate ts.length Verdict.deny := by
  intro ts
  induction ts with
  | nil => intro m h; rfl
  | cons t ts ih =>
    intro m h
    have hcap : (clientFor { rps := R, burst := 0, enabled := true } m ip t).limiter.capacity ≤ 0 := by
      unfold clientFor
      cases hl : lookupClient m ip with
      | none => simp [newLimiter]
      | some c => simpa using h c hl
    obtain ⟨hverdict, hcap2⟩ :=
      tryAdmit_cap_nonpos ((clientFor { rps := R, burst := 0, enabled := true } m ip t).limiter) t hcap
    have hmap :
        ∀ c, lookupClient (rateLimit { rps := R, burst := 0, enabled := true } m ip t).2 ip = some c →
          c.limiter.capacity ≤ 0 := by
      intro c hc
      have : lookupClient
          (insertClient m ip
            { limiter := ((clientFor { rps := R, burst := 0, enabled := true } m ip t).limiter.tryAdmit t).2
              lastSeen := t }) ip =
          some { limiter := ((clientFor { rps := R, burst := 0, enabled := true } m ip t).limiter.tryAdmit t).2
                 lastSeen := t } :=
        lookupClient_insert_self m ip _
      simp only [rateLimit, if_pos] at hc
      rw [this] at hc
      cases hc
      exact hcap2
    simp only [runChecksFor, List.length_cons, List.replicate_succ]
    rw [ih _ hmap]
    have hv : (rateLimit { rps := R, burst := 0, enabled := true } m ip t).1 = Verdict.deny := by
      simp [rateLimit, hverdict]
    rw [hv]

/-! ## Evictor loop lemma -/

theorem evictorRun_running (signals : ℕ → Bool) (times : ℕ → ℚ) (m : ClientMap) :
    ∀ (n : ℕ), ∃ m2, evictorRun signals times (EvictorState.running m) n =
      EvictorState.running m2 := by
  intro n
  induction n with
  | zero => exact ⟨m, rfl⟩
  | succ n ih =>
    obtain ⟨m2, hm2⟩ := ih
    exact ⟨evictSweep m2 (times n), by simp [evictorRun, hm2, evictorStep]⟩

/-- Verdicts of `burst + 1` immediate admission checks by a brand-new client:
the first `burst` are allowed and the next one is denied. -/
theorem fresh_burst_succ_verdicts (B : ℕ) (R : ℚ) (ip : String) (now : ℚ) :
    (runChecksFor { rps := R, burst := (B : ℤ), enabled := true } ip []
        (List.replicate (B + 1) now)).1 =
      List.replicate B Verdict.allow ++ [Verdict.deny] := by
  rw [fresh_replicate_verdicts B R ip now (B + 1)]
  have h1 : min (B + 1) B = B := min_eq_right (Nat.le_succ B)
  have h2 : B + 1 - B = 1 := by omega
  rw [h1, h2]
  rfl

/-! ## Claim theorems -/

/-- Claim C1: for every fresh per-client bucket of capacity `B` (burst) and
refill rate `R`, a run of `B + 1` admission checks issued with negligible
elapsed time between them (all at the same instant) returns Allow for exactly
the first `B` checks and Deny for the `(B+1)`-th check. -/
theorem claim_C1_fresh_bucket_admits_burst (B : ℕ) (R : ℚ) (ip : String) (now : ℚ) :
    (runChecksFor { rps := R, burst := (B : ℤ), enabled := true } ip []
        (List.replicate (B + 1) now)).1 =
      List.replicate B Verdict.allow ++ [Verdict.deny] :=
  fresh_burst_succ_verdicts B R ip now

/-- Claim C2: the middleware performs each admission check atomically under the
registry mutex, so a batch of `10 * B` concurrent checks for the same identity
against a fresh bucket of capacity `B` runs as a serialization of the atomic
checks; every such serialized run yields exactly `B` Allow verdicts — no
interleaving admits more than `B` requests. -/
theorem claim_C2_concurrent_checks_admit_exactly_burst (B : ℕ) (R : ℚ)
    (ip : String) (now : ℚ) :
    ((runChecksFor { rps := R, burst := (B : ℤ), enabled := true } ip []
        (List.replicate (10 * B) now)).1).count Verdict.allow = B := by
  rw [fresh_replicate_verdicts B R ip now (10 * B)]
  have h1 : min (10 * B) B = B := min_eq_right (by omega)
  rw [h1, List.count_append]
  simp [List.count_replicate]

/-- Claim C3: for every token bucket with nonnegative refill rate satisfying
the cap invariant, and every sequence of admission checks at arbitrary
(monotone) times, the token count stays between 0 and the capacity: refill is
capped at capacity no matter how long the bucket was idle, and the count never
becomes negative. -/
theorem claim_C3_tokens_within_bounds (b : TokenBucket) (ts : List ℚ)
    (hr : 0 ≤ b.rate) (hinv : BucketInv b)
    (hmono : List.Chain (fun x y => x ≤ y) b.lastRefill ts) :
    BucketInv (runAt b ts) :=
  runAt_preserves_inv ts b hr hinv hmono

/-- Concrete instance of claim C3: a full bucket of capacity 4 and rate 2,
checked at instants 0, 0, 10, 10, keeps its token count within bounds. -/
theorem claim_C3_tokens_within_bounds_witness :
    (0 : ℚ) ≤ ({ capacity := 4, rate := 2, tokens := 4, lastRefill := 0 } : TokenBucket).rate ∧
      BucketInv { capacity := 4, rate := 2, tokens := 4, lastRefill := 0 } ∧
      List.Chain (fun x y : ℚ => x ≤ y)
        ({ capacity := 4, rate := 2, tokens := 4, lastRefill := 0 } : TokenBucket).lastRefill
        [0, 0, 10, 10] ∧
      BucketInv (runAt { capacity := 4, rate := 2, tokens := 4, lastRefill := 0 } [0, 0, 10, 10]) :=
  ⟨by norm_num, by constructor <;> norm_num, by norm_num [List.chain_cons],
    claim_C3_tokens_within_bounds _ _ (by norm_num) (by constructor <;> norm_num)
      (by norm_num [List.chain_cons])⟩

/-- Claim C4: an entry whose last-activity timestamp is more than the idle
threshold (3 minutes = 180 s) old at sweep time is removed by the sweep, and
the next admission check for that identity behaves exactly like a first-seen
client: same verdict and same resulting registry entry as on an empty
registry, i.e. a brand-new full-capacity bucket with no memory of prior
exhaustion. -/
theorem claim_C4_stale_entry_evicted_fresh_restart (cfg : LimiterConfig)
    (m : ClientMap) (ip : String) (c : Client) (now t : ℚ)
    (hnd : (m.map Prod.fst).Nodup) (hfound : lookupClient m ip = some c)
    (hidle : now - c.lastSeen > 180) :
    lookupClient (evictSweep m now) ip = none ∧
      (rateLimit cfg (evictSweep m now) ip t).1 = (rateLimit cfg [] ip t).1 ∧
      lookupClient (rateLimit cfg (evictSweep m now) ip t).2 ip =
        lookupClient (rateLimit cfg [] ip t).2 ip := by
  have hp : (fun kv : String × Client => decide (now - kv.2.lastSeen ≤ 180)) (ip, c) = false := by
    simp only [decide_eq_false_iff_not, not_le]
    linarith
  have h1 : lookupClient (evictSweep m now) ip = none :=
    lookupClient_filter_dropped m _ ip c hnd hfound hp
  have h2 := rateLimit_congr cfg (evictSweep m now) [] ip t (by rw [h1]; rfl)
  exact ⟨h1, h2⟩

/-- A sample registry for concrete instances: one client, last seen at time 0,
with an exhausted bucket. -/
def sampleClient : Client :=
  { limiter := { capacity := 4, rate := 2, tokens := 0, lastRefill := 0 }, lastSeen := 0 }

/-- A sample one-entry registry holding `sampleClient`. -/
def sampleMap : ClientMap := [("1.2.3.4", sampleClient)]

/-- Concrete instance of claim C4: the sample client, idle for 200 s, is
evicted by a sweep at time 200, and its next check at time 300 matches a
first-seen client. -/
theorem claim_C4_stale_entry_evicted_fresh_restart_witness :
    ((sampleMap.map Prod.fst).Nodup ∧
        lookupClient sampleMap "1.2.3.4" = some sampleClient ∧
        (200 : ℚ) - sampleClient.lastSeen > 180) ∧
      lookupClient (evictSweep sampleMap 200) "1.2.3.4" = none ∧
      (rateLimit { rps := 2, burst := 4, enabled := true } (evictSweep sampleMap 200)
          "1.2.3.4" 300).1 =
        (rateLimit { rps := 2, burst := 4, enabled := true } [] "1.2.3.4" 300).1 ∧
      lookupClient (rateLimit { rps := 2, burst := 4, enabled := true }
          (evictSweep sampleMap 200) "1.2.3.4" 300).2 "1.2.3.4" =
        lookupClient (rateLimit { rps := 2, burst := 4, enabled := true } [] "1.2.3.4" 300).2
          "1.2.3.4" :=
  ⟨⟨by decide, by decide, by norm_num [sampleClient]⟩,
    claim_C4_stale_entry_evicted_fresh_restart { rps := 2, burst := 4, enabled := true }
      sampleMap "1.2.3.4" sampleClient 200 300 (by decide) (by decide)
      (by norm_num [sampleClient])⟩

/-- Claim C5 (the code side): the eviction goroutine's loop (middleware.go
lines 64-83) has no cancellation path.  However many sleep intervals elapse
and whatever shutdown signals are raised at each iteration — including a
shutdown requested at every step — a running loop is still running: it never
reaches the stopped state, contradicting the requirement that it terminate
within one sleep interval of graceful shutdown. -/
theorem claim_C5_evictor_loop_never_stops (signals : ℕ → Bool) (times : ℕ → ℚ)
    (m : ClientMap) (n : ℕ) :
    evictorRun signals times (EvictorState.running m) n ≠ EvictorState.stopped := by
  obtain ⟨m2, hm2⟩ := evictorRun_running signals times m n
  rw [hm2]
  intro h
  cases h

/-- Claim C6: for a bucket of rate `R > 0` holding `k` whole tokens with room
for at least one more (`k + 1 ≤ capacity`), after `1/R` seconds elapse with no
intervening checks, exactly one more admission check returns Allow than the
remaining `k` tokens alone would have permitted: `k + 1` checks are allowed
and the `(k+2)`-th is denied. -/
theorem claim_C6_one_refill_after_inverse_rate (cap R t0 : ℚ) (k : ℕ)
    (hR : 0 < R) (hk : (k : ℚ) + 1 ≤ cap) :
    runChecks { capacity := cap, rate := R, tokens := (k : ℚ), lastRefill := t0 }
        (t0 + 1 / R) (k + 2) =
      List.replicate (k + 1) true ++ [false] := by
  have hRne : R ≠ 0 := ne_of_gt hR
  have hrefill :
      TokenBucket.refill
          { capacity := cap, rate := R, tokens := (k : ℚ), lastRefill := t0 } (t0 + 1 / R) =
        { capacity := cap, rate := R, tokens := ((k + 1 : ℕ) : ℚ), lastRefill := t0 + 1 / R } := by
    have h1 : t0 + 1 / R - t0 = 1 / R := by ring
    have h2 : 1 / R * R = 1 := one_div_mul_cancel hRne
    simp only [TokenBucket.refill, h1, h2]
    congr 1
    rw [min_eq_left hk]
    push_cast
    ring
  rw [← runChecks_refill _ (t0 + 1 / R) (k + 2), hrefill,
    runChecks_nat_tokens cap R (t0 + 1 / R) (k + 2) (k + 1) (by push_cast; linarith)]
  have h1 : min (k + 2) (k + 1) = k + 1 := min_eq_right (by omega)
  have h2 : k + 2 - (k + 1) = 1 := by omega
  rw [h1, h2]
  rfl

/-- Concrete instance of claim C6: the spec scenario — rate 2, an exhausted
bucket of capacity 4; after 1/2 s one check is allowed and the next denied. -/
theorem claim_C6_one_refill_after_inverse_rate_witness :
    ((0 : ℚ) < 2 ∧ ((0 : ℕ) : ℚ) + 1 ≤ 4) ∧
      runChecks { capacity := 4, rate := 2, tokens := ((0 : ℕ) : ℚ), lastRefill := 0 }
          (0 + 1 / 2) (0 + 2) =
        List.replicate (0 + 1) true ++ [false] :=
  ⟨⟨by norm_num, by norm_num⟩,
    claim_C6_one_refill_after_inverse_rate 4 2 0 0 (by norm_num) (by norm_num)⟩

/-- Claim C7: when the limiter is disabled, every admission check returns
Allow and leaves the registry untouched, regardless of client or volume. -/
theorem claim_C7_disabled_always_allows (cfg : LimiterConfig) (m : ClientMap)
    (ip : String) (now : ℚ) (h : cfg.enabled = false) :
    rateLimit cfg m ip now = (Verdict.allow, m) := by
  simp [rateLimit, h]

/-- Concrete instance of claim C7: with limiting disabled, a check by a new
client on the sample registry allows and changes nothing. -/
theorem claim_C7_disabled_always_allows_witness :
    ({ rps := 2, burst := 4, enabled := false } : LimiterConfig).enabled = false ∧
      rateLimit { rps := 2, burst := 4, enabled := false } sampleMap "9.9.9.9" 7 =
        (Verdict.allow, sampleMap) :=
  ⟨rfl, claim_C7_disabled_always_allows { rps := 2, burst := 4, enabled := false }
    sampleMap "9.9.9.9" 7 rfl⟩

/-- Claim C8: an admission check for one identity never touches another
identity's entry — after any sequence of checks by `ipA`, the registry entry
of a distinct `ipB` is unchanged, and `ipB`'s subsequent verdict sequence is
identical to what it would be had `ipA` sent no requests at all. -/
theorem claim_C8_distinct_identities_independent (cfg : LimiterConfig)
    (ipA ipB : String) (h : ipA ≠ ipB) (m : ClientMap) (tsA tsB : List ℚ) :
    lookupClient (runChecksFor cfg ipA m tsA).2 ipB = lookupClient m ipB ∧
      (runChecksFor cfg ipB (runChecksFor cfg ipA m tsA).2 tsB).1 =
        (runChecksFor cfg ipB m tsB).1 := by
  have hframe := runChecksFor_frame cfg ipA ipB (fun hh => h hh.symm) tsA m
  exact ⟨hframe, (runChecksFor_congr cfg ipB tsB _ m hframe).1⟩

/-- Concrete instance of claim C8: client "a" exhausts a burst-1 limiter with
two checks; client "b"'s entry and verdicts are as if "a" had never appeared. -/
theorem claim_C8_distinct_identities_independent_witness :
    ("a" : String) ≠ "b" ∧
      (lookupClient (runChecksFor { rps := 2, burst := 1, enabled := true } "a" [] [0, 0]).2 "b" =
          lookupClient [] "b" ∧
        (runChecksFor { rps := 2, burst := 1, enabled := true } "b"
            (runChecksFor { rps := 2, burst := 1, enabled := true } "a" [] [0, 0]).2 [0]).1 =
          (runChecksFor { rps := 2, burst := 1, enabled := true } "b" [] [0]).1) :=
  ⟨by decide, claim_C8_distinct_identities_independent
    { rps := 2, burst := 1, enabled := true } "a" "b" (by decide) [] [0, 0] [0]⟩

/-- Claim C9: a request whose client identity cannot be resolved maps to the
deterministic sentinel (empty-string) key, and checks under that sentinel are
rate-limited exactly like any other client — burst `B` immediate requests are
allowed and the next one is denied, so an unresolvable identity never bypasses
rate limiting (and the check is a total function: it cannot crash). -/
theorem claim_C9_unresolved_identity_still_limited (B : ℕ) (R : ℚ) (now : ℚ) :
    resolveIdentity none = "" ∧
      (runChecksFor { rps := R, burst := (B : ℤ), enabled := true } (resolveIdentity none) []
          (List.replicate (B + 1) now)).1 =
        List.replicate B Verdict.allow ++ [Verdict.deny] :=
  ⟨rfl, fresh_burst_succ_verdicts B R (resolveIdentity none) now⟩

/-- Claim C10: the configuration surface accepts `burst = 0` (a plain Go int
with no positivity validation), and with the limiter enabled and burst 0 every
admission check returns Deny — including the very first request of a
never-seen client — at arbitrary check times. -/
theorem claim_C10_zero_burst_denies_everything (R : ℚ) (ip : String) (ts : List ℚ) :
    (runChecksFor { rps := R, burst := 0, enabled := true } ip [] ts).1 =
      List.replicate ts.length Verdict.deny :=
  runChecksFor_cap_nonpos R ip ts []
    (fun c hc => by simp [lookupClient] at hc)
